import Mathlib

set_option maxHeartbeats 1000000
set_option maxRecDepth 8192

/-!
Shallow embedding of the GLBConverter server (`src/unnamed/part_000`, a Node.js
express application).  JavaScript strings are modelled as `List Char`; byte
buffers as `List Nat` (each element a byte value).  Node's POSIX `path` module
(`normalize`, `join`, `resolve`, `extname`, `dirname`) is modelled segment-wise
below, following the algorithm of Node's `normalizeString`.
-/

abbrev Chars := List Char

/-- The parent-directory path segment, the two-character string `..`. -/
def dotdot : Chars := ['.', '.']

/-- Splitting a character list at `/` separators, as in
`String.prototype.split('/')`.  The result is always non-empty. -/
def splitSlash : Chars → List Chars
  | [] => [[]]
  | c :: rest =>
      if c = '/' then [] :: splitSlash rest
      else (c :: (splitSlash rest).headI) :: (splitSlash rest).tail

/-- Joining path segments with `/`, as in `Array.prototype.join('/')`. -/
def joinSegs : List Chars → Chars
  | [] => []
  | [s] => s
  | s :: rest => s ++ '/' :: joinSegs rest

/-- One step of Node's `normalizeString`: fold a single path segment into the
accumulated segment list.  `abs = true` corresponds to `allowAboveRoot = false`
(absolute paths drop `..` at the root instead of keeping it). -/
def normStep (abs : Bool) (acc : List Chars) (seg : Chars) : List Chars :=
  if seg = [] ∨ seg = ['.'] then acc
  else if seg = dotdot then
    if acc ≠ [] ∧ acc.getLast? ≠ some dotdot then acc.dropLast
    else if abs then acc
    else acc ++ [dotdot]
  else acc ++ [seg]

/-- Node's `normalizeString` at the segment level. -/
def normSegs (abs : Bool) (segs : List Chars) : List Chars :=
  segs.foldl (normStep abs) []

/-- Node `path.posix.normalize`. -/
def pathNormalize (p : Chars) : Chars :=
  if p = [] then ['.']
  else
    let abs : Bool := decide (p.headD ' ' = '/')
    let trail : Bool := decide (p.getLast? = some '/')
    let body := joinSegs (normSegs abs (splitSlash p))
    let body1 := if body = [] ∧ abs = false then ['.'] else body
    let body2 := if body1 ≠ [] ∧ trail = true then body1 ++ ['/'] else body1
    if abs then '/' :: body2 else body2

/-- The regex replacement `.replace(/^(\.\.[\/\\])+/, '')` used by
`sanitizePath`: greedily strip leading `../` or `..\` sequences. -/
def stripLeadingParents : Chars → Chars
  | '.' :: '.' :: '/' :: rest => stripLeadingParents rest
  | '.' :: '.' :: '\\' :: rest => stripLeadingParents rest
  | l => l

/-- `sanitizePath` (part_000 lines 90–95): `path.normalize` the input, strip
leading parent sequences, then `split(path.sep).join('/')` (with `path.sep`
being `/` on POSIX). -/
def sanitizePath (unsafePath : Chars) : Chars :=
  let normalized := stripLeadingParents (pathNormalize unsafePath)
  joinSegs (splitSlash normalized)

/-- Node `path.posix.join` restricted to the two-argument form used by the
server: concatenate the non-empty arguments with `/` and normalize. -/
def pathJoin (a b : Chars) : Chars :=
  if a = [] ∧ b = [] then ['.']
  else if a = [] then pathNormalize b
  else if b = [] then pathNormalize a
  else pathNormalize (a ++ '/' :: b)

/-- Node `path.posix.resolve` with a single argument, given the working
directory `cwd` of the process (assumed absolute): prepend `cwd` unless the
argument is already absolute, then normalize without keeping `..` above the
root. -/
def pathResolve (cwd p : Chars) : Chars :=
  let full := if p = [] then cwd else if p.headD ' ' = '/' then p else cwd ++ '/' :: p
  '/' :: joinSegs (normSegs true (splitSlash full))

/-- `validatePath` (part_000 lines 98–102): resolve both paths and compare with
`String.prototype.startsWith`, a plain character-wise prefix test. -/
def validatePath (cwd basePath targetPath : Chars) : Bool :=
  (pathResolve cwd basePath).isPrefixOf (pathResolve cwd targetPath)

/-- A lowercase hexadecimal digit, the character class `[a-f0-9]`. -/
def isLowerHexDigit (c : Char) : Bool :=
  (decide ('a' ≤ c) && decide (c ≤ 'f')) || (decide ('0' ≤ c) && decide (c ≤ '9'))

/-- `isValidSessionId` (part_000 lines 111–113): the regex `^[a-f0-9]{64}$`. -/
def isValidSessionId (sessionId : Chars) : Bool :=
  sessionId.length == 64 && sessionId.all isLowerHexDigit

/-- The digits used by `Buffer.prototype.toString('hex')`. -/
def hexChar (n : Nat) : Char := "0123456789abcdef".data.getD n '0'

/-- `generateSecureSessionId` (part_000 lines 85–87):
`crypto.randomBytes(32).toString('hex')`.  The 32 random bytes produced by the
external `crypto` library are taken as an argument; the function renders them
in lowercase hexadecimal, two digits per byte. -/
def generateSecureSessionId (bytes : List Nat) : Chars :=
  (bytes.map fun b => [hexChar (b / 16), hexChar (b % 16)]).flatten

/-- The result object `{ valid, type }` of `validateImageBuffer`
(`type: null` is modelled as `none`). -/
structure ImageValidation where
  valid : Bool
  type : Option Chars
deriving DecidableEq

/-- `validateImageBuffer` (part_000 lines 123–142): inspect the first four
bytes (`new Uint8Array(buffer).slice(0, 4)`) against the PNG, JPEG and WebP
magic numbers.  An out-of-range JavaScript index read yields `undefined`, which
compares unequal to every byte; this is modelled by `List.get?` returning
`none`. -/
def validateImageBuffer (buffer : List Nat) : ImageValidation :=
  let uint8 := buffer.take 4
  if uint8[0]? = some 0x89 ∧ uint8[1]? = some 0x50 ∧ uint8[2]? = some 0x4E ∧ uint8[3]? = some 0x47 then
    ⟨true, some "image/png".data⟩
  else if uint8[0]? = some 0xFF ∧ uint8[1]? = some 0xD8 ∧ uint8[2]? = some 0xFF then
    ⟨true, some "image/jpeg".data⟩
  else if uint8[0]? = some 0x52 ∧ uint8[1]? = some 0x49 ∧ uint8[2]? = some 0x46 ∧ uint8[3]? = some 0x46 then
    ⟨true, some "image/webp".data⟩
  else ⟨false, none⟩

/-- The alternative `^172\.(1[6-9]|2[0-9]|3[0-1])\.` of `isPrivateIP`. -/
def matches172Range : Chars → Bool
  | '1' :: '7' :: '2' :: '.' :: a :: b :: '.' :: _ =>
      (a == '1' && decide ('6' ≤ b) && decide (b ≤ '9'))
      || (a == '2' && decide ('0' ≤ b) && decide (b ≤ '9'))
      || (a == '3' && (b == '0' || b == '1'))
  | _ => false

/-- `isPrivateIP` (part_000 lines 159–173): test the hostname against the
private/loopback/link-local regular expression patterns, in source order. -/
def isPrivateIP (hostname : Chars) : Bool :=
  "127.".data.isPrefixOf hostname
  || "10.".data.isPrefixOf hostname
  || matches172Range hostname
  || "192.168.".data.isPrefixOf hostname
  || "169.254.".data.isPrefixOf hostname
  || hostname == "::1".data
  || "fc00:".data.isPrefixOf hostname
  || "fe80:".data.isPrefixOf hostname

/-- `isAllowedDomain` (part_000 lines 145–156).  The WHATWG URL parse
(`new URL(url)`) is external to the repository; the function is modelled over
its outcome: `none` when parsing throws (the `catch` branch returns `false`),
`some hostname` otherwise.  The hostname is compared against the two-entry
allow-list. -/
def isAllowedDomain (parsedHostname : Option Chars) : Bool :=
  match parsedHostname with
  | none => false
  | some hostname =>
      hostname == "drive.google.com".data || hostname == "lh3.googleusercontent.com".data

/-- The character class `[a-zA-Z0-9_-]` capturing a Google Drive file id. -/
def isDriveIdChar (c : Char) : Bool :=
  (decide ('a' ≤ c) && decide (c ≤ 'z')) || (decide ('A' ≤ c) && decide (c ≤ 'Z'))
  || (decide ('0' ≤ c) && decide (c ≤ '9')) || c == '_' || c == '-'

/-- First-match semantics of `url.match(/lit([a-zA-Z0-9_-]+)/)`: scan for the
first position where the literal is followed by at least one id character and
return the (greedy) captured id. -/
def scanFor (lit : Chars) : Chars → Option Chars
  | [] => none
  | c :: rest =>
      let cap := ((c :: rest).drop lit.length).takeWhile isDriveIdChar
      if lit.isPrefixOf (c :: rest) && !cap.isEmpty then some cap
      else scanFor lit rest

/-- The regex `/drive\.google\.com\/file\/d\/([a-zA-Z0-9_-]+)/` (part_000 line 359). -/
def driveMatch1 (url : Chars) : Option Chars :=
  scanFor "drive.google.com/file/d/".data url

/-- The regex `/drive\.google\.com\/open\?id=([a-zA-Z0-9_-]+)/` (part_000 line 360). -/
def driveMatch2 (url : Chars) : Option Chars :=
  scanFor "drive.google.com/open?id=".data url

/-- The canonical Google Drive direct-download URL built at part_000
lines 364 and 368. -/
def canonicalDriveUrl (fileId : Chars) : Chars :=
  "https://drive.google.com/uc?export=download&id=".data ++ fileId ++ "&confirm=t".data

/-- The URL rewrite of `GET /api/proxy-image` (part_000 lines 357–370): if
either Google Drive share-link pattern matches, replace the fetch target with
the canonical direct-download URL carrying the captured file id; otherwise
fetch the URL unchanged. -/
def rewriteDriveUrl (url : Chars) : Chars :=
  match driveMatch1 url with
  | some fileId => canonicalDriveUrl fileId
  | none =>
      match driveMatch2 url with
      | some fileId => canonicalDriveUrl fileId
      | none => url

/-- Outcome of the validation part of `GET /api/proxy-image` before the
outbound fetch: a 400 response, a 403 response, or an outbound fetch of the
(possibly rewritten) URL. -/
inductive ProxyOutcome where
  | invalidUrl
  | domainNotAllowed
  | fetch (fetchUrl : Chars)
deriving DecidableEq

/-- The request validation of `GET /api/proxy-image` (part_000 lines 337–370):
reject with 400 unless `validator.isURL` accepts (the external `validator`
library's verdict is the `urlSyntaxOk` argument), reject with 403 unless the
parsed hostname is allow-listed, then perform the outbound fetch of the
rewritten URL. -/
def proxyImageHandler (urlSyntaxOk : Bool) (parsedHostname : Option Chars) (url : Chars) :
    ProxyOutcome :=
  if !urlSyntaxOk then ProxyOutcome.invalidUrl
  else if !isAllowedDomain parsedHostname then ProxyOutcome.domainNotAllowed
  else ProxyOutcome.fetch (rewriteDriveUrl url)

/-- The scanning state of Node `path.posix.extname` (sentinel `-1` as in the
source; `broke` records that the loop hit `break`). -/
structure ExtnameState where
  startDot : Int
  startPart : Int
  endIdx : Int
  matchedSlash : Bool
  preDotState : Int
  broke : Bool

/-- One iteration of the `extname` scanning loop at character `c`, index `i`. -/
def extnameStep (c : Char) (i : Nat) (s : ExtnameState) : ExtnameState :=
  if s.broke then s
  else if c = '/' then
    if !s.matchedSlash then { s with startPart := (i : Int) + 1, broke := true } else s
  else
    let s1 := if s.endIdx = -1 then { s with matchedSlash := false, endIdx := (i : Int) + 1 } else s
    if c = '.' then
      if s1.startDot = -1 then { s1 with startDot := (i : Int) }
      else if s1.preDotState ≠ 1 then { s1 with preDotState := 1 }
      else s1
    else if s1.startDot ≠ -1 then { s1 with preDotState := -1 }
    else s1

/-- Run the `extname` loop from index `i - 1` down to `0`. -/
def extnameScan (p : Chars) : Nat → ExtnameState → ExtnameState
  | 0, s => s
  | i + 1, s => extnameScan p i (extnameStep (p.getD i ' ') i s)

/-- `String.prototype.slice(a, b)` for non-negative indices. -/
def sliceChars (l : Chars) (a b : Int) : Chars := (l.take b.toNat).drop a.toNat

/-- Node `path.posix.extname`, following the source's scanning loop. -/
def extname (p : Chars) : Chars :=
  let s := extnameScan p p.length ⟨-1, 0, -1, true, 0, false⟩
  if s.startDot = -1 ∨ s.endIdx = -1 ∨ s.preDotState = 0
      ∨ (s.preDotState = 1 ∧ s.startDot = s.endIdx - 1 ∧ s.startDot = s.startPart + 1) then
    []
  else sliceChars p s.startDot s.endIdx

/-- `isAllowedFileExtension` (part_000 lines 116–120):
`['.glb', '.mind', '.json'].includes(path.extname(filename).toLowerCase())`. -/
def isAllowedFileExtension (filename : Chars) : Bool :=
  let ext := (extname filename).map Char.toLower
  ext == ".glb".data || ext == ".mind".data || ext == ".json".data

/-- The scanning loop of Node `path.posix.dirname` from index `i` down to `1`:
find the last `/` that follows a non-slash character. -/
def dirnameLoop (p : Chars) : Nat → Bool → Int
  | 0, _ => -1
  | i + 1, matched =>
      if p.getD (i + 1) ' ' = '/' then
        if matched then dirnameLoop p i matched else ((i : Int) + 1)
      else dirnameLoop p i false

/-- Node `path.posix.dirname`. -/
def dirname (p : Chars) : Chars :=
  if p = [] then ['.']
  else
    let hasRoot := p.headD ' ' = '/'
    let endIdx := dirnameLoop p (p.length - 1) true
    if endIdx = -1 then (if hasRoot then ['/'] else ['.'])
    else if hasRoot ∧ endIdx = 1 then ['/', '/']
    else p.take endIdx.toNat

/-- A client-supplied file descriptor of `POST /api/create-zip`:
`{ path, content, type }`.  `content` is kept as the raw string of the request
body (for `type: 'json'` the decoded bytes are produced by the abstracted
`decode` function, see `fileOps`). -/
structure FileData where
  path : Chars
  content : Chars
  type : Chars

/-- A filesystem side effect performed by the create-zip endpoint. -/
inductive FsOp where
  | ensureDir (dir : Chars)
  | writeFile (file : Chars) (buffer : List Nat)
  | zipArchive (sourceDir : Chars) (outputPath : Chars)
deriving DecidableEq

/-- The per-file body of the `for (const fileData of files)` loop of
`POST /api/create-zip` (part_000 lines 264–319), as the list of filesystem
operations it performs.  A `continue` is an early exit with no further
operations.  The byte decoding (`Buffer.from(..., 'base64')` after stripping a
data-URL header, `JSON.stringify(content, null, 2)`, or `Buffer.from(content)`)
is performed by external Node builtins and is abstracted as the `decode`
argument. -/
def fileOps (decode : FileData → List Nat) (cwd outputDir : Chars) (fd : FileData) :
    List FsOp :=
  let safePath := sanitizePath fd.path
  if safePath = [] ∨ 255 < safePath.length then []
  else
    let fullPath := pathJoin outputDir safePath
    if validatePath cwd outputDir fullPath = false then []
    else if isAllowedFileExtension fullPath = false then []
    else
      let dirOps := [FsOp.ensureDir (dirname fullPath)]
      if fd.type = "base64".data ∧ 20971520 < fd.content.length then dirOps
      else
        let buffer := decode fd
        if 20971520 < buffer.length then dirOps
        else dirOps ++ [FsOp.writeFile fullPath buffer]

/-- The whole file loop: each file's operations in order. -/
def processFiles (decode : FileData → List Nat) (cwd outputDir : Chars)
    (files : List FileData) : List FsOp :=
  files.foldl (fun ops fd => ops ++ fileOps decode cwd outputDir fd) []

/-- The terminal event of the archive build: Node's `close` event on the
output write stream, an `error` event from the archiver, or an `error` event
from the output write stream itself.  Which event fires is determined by the
external stream libraries and is taken as an argument. -/
inductive ZipStreamEvent where
  | close
  | archiveError (msg : Chars)
  | outputError (msg : Chars)
deriving DecidableEq

/-- `createZip` (part_000 lines 477–489): the returned Promise resolves only
when the output stream emits `close` (`output.on('close', ...)`) and rejects
only when the archiver emits `error` (`archive.on('error', ...)`).  The source
attaches NO listener to the output write stream's own `error` event, so on a
stream write error the promise never settles; this is modelled by `none`. -/
def createZip (outcome : ZipStreamEvent) : Option (Except Chars Unit) :=
  match outcome with
  | ZipStreamEvent.close => some (Except.ok ())
  | ZipStreamEvent.archiveError e => some (Except.error e)
  | ZipStreamEvent.outputError _ => none

/-- The HTTP response of `POST /api/create-zip`: a 400 with a message, a 200
with a download URL, the generic 500 of the `catch` block, or no response at
all (the `await createZip(...)` never settles, so the handler hangs and sends
nothing). -/
inductive ZipResult where
  | clientError (msg : Chars)
  | success (downloadUrl : Chars)
  | serverError
  | noResponse
deriving DecidableEq

/-- `POST /api/create-zip` (part_000 lines 232–334): session-id and files
validation, the per-file loop, the archive step, and the response.  Returns the
filesystem operations performed (in order) paired with the response.
`files = none` models a body whose `files` field is not an array. -/
def createZipHandler (decode : FileData → List Nat) (cwd tempDir : Chars)
    (outcome : ZipStreamEvent) (sessionId : Chars) (files : Option (List FileData)) :
    List FsOp × ZipResult :=
  if isValidSessionId sessionId = false then
    ([], ZipResult.clientError "Invalid session ID".data)
  else
    match files with
    | none => ([], ZipResult.clientError "Invalid files array".data)
    | some fileList =>
        if fileList.length = 0 then ([], ZipResult.clientError "Invalid files array".data)
        else if 1000 < fileList.length then ([], ZipResult.clientError "Too many files".data)
        else
          let sessionDir := pathJoin tempDir sessionId
          let outputDir := pathJoin sessionDir "output".data
          if validatePath cwd tempDir sessionDir = false then
            ([], ZipResult.clientError "Invalid path".data)
          else
            let ops := FsOp.ensureDir outputDir :: processFiles decode cwd outputDir fileList
            let zipPath := pathJoin sessionDir "ar_output.zip".data
            let allOps := ops ++ [FsOp.zipArchive outputDir zipPath]
            match createZip outcome with
            | some (Except.ok _) =>
                (allOps, ZipResult.success
                  ("/download/".data ++ sessionId ++ "/ar_output.zip".data))
            | some (Except.error _) => (allOps, ZipResult.serverError)
            | none => (allOps, ZipResult.noResponse)

/-- A character of the filename whitelist `[a-zA-Z0-9_\-\.]`. -/
def isFilenameChar (c : Char) : Bool :=
  (decide ('a' ≤ c) && decide (c ≤ 'z')) || (decide ('A' ≤ c) && decide (c ≤ 'Z'))
  || (decide ('0' ≤ c) && decide (c ≤ '9')) || c == '_' || c == '-' || c == '.'

/-- `isValidFilename` (part_000 lines 105–108): the regex `^[a-zA-Z0-9_\-\.]+$`. -/
def isValidFilename (filename : Chars) : Bool :=
  !filename.isEmpty && filename.all isFilenameChar

/-- The response of `GET /download/:sessionId/:filename`: a 400, a 404, or
`res.download(filePath, ...)` streaming the file at `filePath`. -/
inductive DownloadResult where
  | badRequest (msg : Chars)
  | served (filePath : Chars)
  | notFound
deriving DecidableEq

/-- `GET /download/:sessionId/:filename` (part_000 lines 428–471): validate the
session id and filename, contain `path.join(sessionDir, filename)` in the
session directory, then serve the file when it exists (`fs.existsSync`, whose
verdict on the current filesystem is the `fileExists` argument). -/
def downloadHandler (cwd tempDir sessionId filename : Chars) (fileExists : Bool) :
    DownloadResult :=
  if isValidSessionId sessionId = false then
    DownloadResult.badRequest "Invalid session ID".data
  else if isValidFilename filename = false then
    DownloadResult.badRequest "Invalid filename".data
  else
    let sessionDir := pathJoin tempDir sessionId
    let filePath := pathJoin sessionDir filename
    if validatePath cwd sessionDir filePath = false then
      DownloadResult.badRequest "Invalid path".data
    else if fileExists then DownloadResult.served filePath
    else DownloadResult.notFound

/-- The per-file validation failures of the create-zip loop (part_000
lines 267–315): empty or over-long sanitized path, containment failure,
disallowed extension, oversized base64 text, or oversized decoded buffer.
Each of these triggers a `continue`. -/
def failsValidation (decode : FileData → List Nat) (cwd outputDir : Chars)
    (fd : FileData) : Prop :=
  sanitizePath fd.path = []
  ∨ 255 < (sanitizePath fd.path).length
  ∨ validatePath cwd outputDir (pathJoin outputDir (sanitizePath fd.path)) = false
  ∨ isAllowedFileExtension (pathJoin outputDir (sanitizePath fd.path)) = false
  ∨ (fd.type = "base64".data ∧ 20971520 < fd.content.length)
  ∨ 20971520 < (decode fd).length

instance (decode : FileData → List Nat) (cwd outputDir : Chars) (fd : FileData) :
    Decidable (failsValidation decode cwd outputDir fd) := by
  unfold failsValidation; infer_instance

/-- `target` lies inside the directory `base` (it is `base` itself or a path
below it, respecting segment boundaries). -/
def resolvesInside (base target : Chars) : Prop :=
  target = base ∨ ∃ rest, target = base ++ '/' :: rest

/-- A path segment that `normalizeString` copies through unchanged: neither
empty nor `.` nor `..`. -/
def plainSeg (seg : Chars) : Prop :=
  seg ≠ [] ∧ seg ≠ ['.'] ∧ seg ≠ dotdot

instance (seg : Chars) : Decidable (plainSeg seg) := by
  unfold plainSeg
  infer_instance

/-- Segments kept by normalization of a `..`-free segment list. -/
def keepSeg (seg : Chars) : Bool :=
  !(seg == [] || seg == ['.'])

example : sanitizePath "../../etc/passwd".data = "etc/passwd".data := by decide
example : sanitizePath "a/../..".data = "..".data := by decide
example : pathNormalize "/a/../b/./c//".data = "/b/c/".data := by decide
example : validatePath "/".data "/base".data "/base-evil".data = true := by decide
example : validateImageBuffer [0xFF, 0xD8, 0xFF] = ⟨true, some "image/jpeg".data⟩ := by decide
example : rewriteDriveUrl "https://drive.google.com/file/d/ABC123/view".data
    = canonicalDriveUrl "ABC123".data := by decide
example : isPrivateIP "172.20.1.1".data = true := by decide
example : isPrivateIP "172.32.1.1".data = false := by decide
example : isValidSessionId (generateSecureSessionId (List.replicate 32 255)) = true := by decide
example : extname "/tmp/out/a.json".data = ".json".data := by decide
example : extname "/tmp/out/.hidden".data = [] := by decide
example : extname "/tmp/out/..".data = [] := by decide
example : extname "a.GLB".data = ".GLB".data := by decide
example : isAllowedFileExtension "/x/model.GLB".data = true := by decide
example : isAllowedFileExtension "/x/run.sh".data = false := by decide
example : dirname "/tmp/out/a.json".data = "/tmp/out".data := by decide
example : dirname "abc".data = ".".data := by decide
example : dirname "/abc".data = "/".data := by decide

/-! ## Helper lemmas -/

lemma getElem?_take4 (l : List Nat) {i : Nat} (h : i < 4) : (l.take 4)[i]? = l[i]? :=
  List.getElem?_take_of_lt h

lemma hexChar_lower_hex : ∀ n, n < 16 → isLowerHexDigit (hexChar n) = true := by decide

lemma hexPairs_length (l : List Nat) :
    ((l.map fun b => [hexChar (b / 16), hexChar (b % 16)]).flatten).length = 2 * l.length := by
  induction l with
  | nil => rfl
  | cons b t ih => simp only [List.map_cons, List.flatten_cons, List.length_append, ih,
      List.length_cons, List.length_nil]; omega

lemma isPrivateIP_not_allowed (hostname : Chars) (hp : isPrivateIP hostname = true) :
    isAllowedDomain (some hostname) = false := by
  cases hd : isAllowedDomain (some hostname) with
  | false => rfl
  | true =>
      exfalso
      simp only [isAllowedDomain, Bool.or_eq_true, beq_iff_eq] at hd
      rcases hd with hd | hd <;> subst hd <;> exact absurd hp (by decide)

/-! ## Claim theorems (first batch) -/

/-- C2: the claim states `validatePath` respects path-segment boundaries so
that a candidate resolving to `/base-evil` is rejected against base `/base`.
The code uses a plain `String.prototype.startsWith` on the resolved paths, so
it in fact ACCEPTS `/base-evil` against `/base`: this theorem evaluates the
embedded `validatePath` at that exact input and shows it returns `true`,
contradicting both the claim and the function's own stated purpose (preventing
access outside the base directory). -/
theorem c2_validatePath_accepts_base_evil :
    validatePath "/".data "/base".data "/base-evil".data = true := by decide

/-- C4: byte buffers whose leading bytes are `89 50 4E 47`, `FF D8 FF *`, or
`52 49 46 46` are classified as PNG, JPEG and WebP respectively, and any buffer
with other leading bytes is classified invalid, independent of any declared
content type (the classifier never receives one). -/
theorem c4_magic_byte_classification (buffer : List Nat) :
    (buffer[0]? = some 0x89 ∧ buffer[1]? = some 0x50 ∧ buffer[2]? = some 0x4E ∧
        buffer[3]? = some 0x47 →
      validateImageBuffer buffer = ⟨true, some "image/png".data⟩)
    ∧ (buffer[0]? = some 0xFF ∧ buffer[1]? = some 0xD8 ∧ buffer[2]? = some 0xFF →
      validateImageBuffer buffer = ⟨true, some "image/jpeg".data⟩)
    ∧ (buffer[0]? = some 0x52 ∧ buffer[1]? = some 0x49 ∧ buffer[2]? = some 0x46 ∧
        buffer[3]? = some 0x46 →
      validateImageBuffer buffer = ⟨true, some "image/webp".data⟩)
    ∧ (¬(buffer[0]? = some 0x89 ∧ buffer[1]? = some 0x50 ∧ buffer[2]? = some 0x4E ∧
          buffer[3]? = some 0x47) →
       ¬(buffer[0]? = some 0xFF ∧ buffer[1]? = some 0xD8 ∧ buffer[2]? = some 0xFF) →
       ¬(buffer[0]? = some 0x52 ∧ buffer[1]? = some 0x49 ∧ buffer[2]? = some 0x46 ∧
          buffer[3]? = some 0x46) →
      validateImageBuffer buffer = ⟨false, none⟩) := by
  have t0 := getElem?_take4 buffer (by omega : (0 : Nat) < 4)
  have t1 := getElem?_take4 buffer (by omega : (1 : Nat) < 4)
  have t2 := getElem?_take4 buffer (by omega : (2 : Nat) < 4)
  have t3 := getElem?_take4 buffer (by omega : (3 : Nat) < 4)
  refine ⟨?_, ?_, ?_, ?_⟩
  · rintro ⟨h0, h1, h2, h3⟩
    simp [validateImageBuffer, t0, t1, t2, t3, h0, h1, h2, h3]
  · rintro ⟨h0, h1, h2⟩
    simp [validateImageBuffer, t0, t1, t2, t3, h0, h1, h2]
  · rintro ⟨h0, h1, h2, h3⟩
    simp [validateImageBuffer, t0, t1, t2, t3, h0, h1, h2, h3]
  · intro h1 h2 h3
    simp only [validateImageBuffer, t0, t1, t2, t3]
    rw [if_neg h1, if_neg h2, if_neg h3]

/-- C4 witness: a concrete PNG-signature buffer is classified as PNG. -/
theorem c4_witness :
    validateImageBuffer [0x89, 0x50, 0x4E, 0x47, 0x0D] = ⟨true, some "image/png".data⟩ :=
  (c4_magic_byte_classification [0x89, 0x50, 0x4E, 0x47, 0x0D]).1 (by decide)

/-- C10 counterexample: the claim says every buffer shorter than four bytes is
classified invalid, but the JPEG test only inspects three bytes, so the
three-byte buffer `FF D8 FF` is classified as a valid JPEG. -/
theorem c10_counterexample :
    [0xFF, 0xD8, 0xFF].length < 4
      ∧ validateImageBuffer [0xFF, 0xD8, 0xFF] = ⟨true, some "image/jpeg".data⟩ := by
  constructor
  · decide
  · decide

/-- C10 (amended): the classifier is total; every buffer shorter than three
bytes (including the empty buffer) is classified invalid (`valid: false`,
`type: null`), and no buffer shorter than four bytes is ever classified as PNG
or WebP (a three-byte `FF D8 FF` buffer is classified as JPEG). -/
theorem c10_short_buffer_classification (buffer : List Nat) :
    (buffer.length < 3 → validateImageBuffer buffer = ⟨false, none⟩)
    ∧ (buffer.length < 4 →
        (validateImageBuffer buffer).type ≠ some "image/png".data
        ∧ (validateImageBuffer buffer).type ≠ some "image/webp".data) := by
  have t0 := getElem?_take4 buffer (by omega : (0 : Nat) < 4)
  have t1 := getElem?_take4 buffer (by omega : (1 : Nat) < 4)
  have t2 := getElem?_take4 buffer (by omega : (2 : Nat) < 4)
  have t3 := getElem?_take4 buffer (by omega : (3 : Nat) < 4)
  constructor
  · intro h
    have g2 : buffer[2]? = none := List.getElem?_eq_none (by omega)
    have g3 : buffer[3]? = none := List.getElem?_eq_none (by omega)
    simp [validateImageBuffer, t0, t1, t2, t3, g2, g3]
  · intro h
    have g3 : buffer[3]? = none := List.getElem?_eq_none (by omega)
    by_cases hj : buffer[0]? = some 0xFF ∧ buffer[1]? = some 0xD8 ∧
        buffer[2]? = some 0xFF
    · have := hj.1
      simp [validateImageBuffer, t0, t1, t2, t3, g3, hj.1, hj.2.1, hj.2.2]
    · simp only [validateImageBuffer, t0, t1, t2, t3, g3]
      rw [if_neg (by simp), if_neg hj, if_neg (by simp)]
      simp

/-- C10 witness: the empty buffer is classified invalid. -/
theorem c10_witness : validateImageBuffer [] = ⟨false, none⟩ :=
  (c10_short_buffer_classification []).1 (by decide)

/-- C9: hex-rendering any 32 random bytes yields a 64-character lowercase
hexadecimal string, so every generated session identifier is accepted by
`isValidSessionId`. -/
theorem c9_generated_id_is_valid (bytes : List Nat) (hlen : bytes.length = 32)
    (hbyte : ∀ b ∈ bytes, b < 256) :
    isValidSessionId (generateSecureSessionId bytes) = true := by
  simp only [isValidSessionId, generateSecureSessionId, Bool.and_eq_true, beq_iff_eq,
    List.all_eq_true]
  constructor
  · rw [hexPairs_length, hlen]
  · intro c hc
    rcases List.mem_flatten.mp hc with ⟨sub, hsub, hcsub⟩
    rcases List.mem_map.mp hsub with ⟨b, hb, rfl⟩
    have hb256 := hbyte b hb
    simp only [List.mem_cons, List.not_mem_nil, or_false] at hcsub
    rcases hcsub with rfl | rfl
    · exact hexChar_lower_hex _ ((Nat.div_lt_iff_lt_mul (by omega)).mpr (by omega))
    · exact hexChar_lower_hex _ (Nat.mod_lt _ (by omega))

/-- C9 witness: a concrete all-zero byte vector yields a valid session id. -/
theorem c9_witness :
    isValidSessionId (generateSecureSessionId (List.replicate 32 0)) = true :=
  c9_generated_id_is_valid (List.replicate 32 0) (by decide) (by decide)

/-- C3: a hostname matching any of the private/loopback/link-local patterns is
never on the two-entry domain allow-list, so the proxy-image validation rejects
the request (with 400 or 403) and in particular never reaches the outbound
fetch, even when the URL's scheme and syntax are otherwise valid. -/
theorem c3_private_hostname_rejected (urlSyntaxOk : Bool) (hostname url : Chars)
    (hpriv : isPrivateIP hostname = true) :
    (urlSyntaxOk = true →
      proxyImageHandler urlSyntaxOk (some hostname) url = ProxyOutcome.domainNotAllowed)
    ∧ ∀ fetchUrl, proxyImageHandler urlSyntaxOk (some hostname) url ≠ ProxyOutcome.fetch fetchUrl := by
  have hna := isPrivateIP_not_allowed hostname hpriv
  constructor
  · rintro rfl
    simp [proxyImageHandler, hna]
  · intro fetchUrl
    cases urlSyntaxOk <;> simp [proxyImageHandler, hna]

/-- C3 witness: a syntactically valid HTTPS URL targeting `127.0.0.1` is
rejected with the domain-not-allowed (403) outcome. -/
theorem c3_witness :
    proxyImageHandler true (some "127.0.0.1".data) "https://127.0.0.1/a.png".data
      = ProxyOutcome.domainNotAllowed :=
  (c3_private_hostname_rejected true "127.0.0.1".data "https://127.0.0.1/a.png".data
    (by decide)).1 rfl

/-- C6: whenever either Google Drive share-link pattern matches (the
`/file/d/<id>` form, or the `open?id=<id>` form when the first does not match),
the proxy rewrites the URL to the canonical direct-download URL
`https://drive.google.com/uc?export=download&id=<id>&confirm=t`, which carries
only the captured file identifier and discards the rest of the original URL. -/
theorem c6_drive_url_rewrite :
    (∀ url fileId, driveMatch1 url = some fileId →
      rewriteDriveUrl url = canonicalDriveUrl fileId)
    ∧ (∀ url fileId, driveMatch1 url = none → driveMatch2 url = some fileId →
      rewriteDriveUrl url = canonicalDriveUrl fileId) := by
  constructor
  · intro url fileId h
    simp [rewriteDriveUrl, h]
  · intro url fileId h1 h2
    simp [rewriteDriveUrl, h1, h2]

/-- C6 witness: `https://drive.google.com/file/d/ABC123/view` is rewritten to
the canonical direct-download URL carrying identifier `ABC123`. -/
theorem c6_witness :
    rewriteDriveUrl "https://drive.google.com/file/d/ABC123/view".data
      = canonicalDriveUrl "ABC123".data :=
  c6_drive_url_rewrite.1 "https://drive.google.com/file/d/ABC123/view".data
    "ABC123".data (by decide)

/-- C5: for every session identifier string that is not 64 lowercase hex
characters, the create-zip endpoint responds with the client error before any
filesystem access: the list of performed filesystem operations is empty. -/
theorem c5_invalid_session_id_no_fs (decode : FileData → List Nat) (cwd tempDir : Chars)
    (outcome : ZipStreamEvent) (sessionId : Chars) (files : Option (List FileData))
    (h : isValidSessionId sessionId = false) :
    createZipHandler decode cwd tempDir outcome sessionId files
      = ([], ZipResult.clientError "Invalid session ID".data) := by
  simp [createZipHandler, h]

/-- C5 witness: a concrete malformed identifier is rejected with no
filesystem operations. -/
theorem c5_witness :
    createZipHandler (fun _ => []) "/".data "/srv/temp".data ZipStreamEvent.close
        "not-a-session".data (some [])
      = ([], ZipResult.clientError "Invalid session ID".data) :=
  c5_invalid_session_id_no_fs (fun _ => []) "/".data "/srv/temp".data ZipStreamEvent.close
    "not-a-session".data (some []) (by decide)

/-- C8: the claim's atomicity fails on the code.  (1) The `createZip` Promise
resolves only on the output stream's `close` event; (2) the output write
stream's own `error` event has no listener in the source, so on a stream write
error the promise never settles and no build failure propagates to the caller
— the handler hangs with no response; (3) at the concrete failing input below
(an archiver error during a build for a valid session), the build opens the
archive write stream directly at `sessionDir/ar_output.zip` — the very path the
download endpoint serves — the source deletes nothing on failure, the endpoint
answers 500, and a subsequent `GET /download/<sessionId>/ar_output.zip` passes
every check of the download endpoint and serves the file left at that
location: the partial archive IS exposed to a download request. -/
theorem c8_partial_archive_exposed :
    (∀ o : ZipStreamEvent, createZip o = some (Except.ok ()) ↔ o = ZipStreamEvent.close)
    ∧ createZip (ZipStreamEvent.outputError "EIO".data) = none
    ∧ (createZipHandler (fun _ => []) "/".data "/tmp".data
          (ZipStreamEvent.outputError "EIO".data) "aaaaaaaaaaaaaaaaaaaaaaaaaaaaaaaaaaaaaaaaaaaaaaaaaaaaaaaaaaaaaaaa".data
          (some [⟨"a.json".data, "x".data, "raw".data⟩])).2 = ZipResult.noResponse
    ∧ (createZipHandler (fun _ => []) "/".data "/tmp".data
          (ZipStreamEvent.archiveError "zip failed".data) "aaaaaaaaaaaaaaaaaaaaaaaaaaaaaaaaaaaaaaaaaaaaaaaaaaaaaaaaaaaaaaaa".data
          (some [⟨"a.json".data, "x".data, "raw".data⟩])).2 = ZipResult.serverError
    ∧ FsOp.zipArchive (pathJoin (pathJoin "/tmp".data "aaaaaaaaaaaaaaaaaaaaaaaaaaaaaaaaaaaaaaaaaaaaaaaaaaaaaaaaaaaaaaaa".data) "output".data)
          (pathJoin (pathJoin "/tmp".data "aaaaaaaaaaaaaaaaaaaaaaaaaaaaaaaaaaaaaaaaaaaaaaaaaaaaaaaaaaaaaaaa".data) "ar_output.zip".data)
        ∈ (createZipHandler (fun _ => []) "/".data "/tmp".data
            (ZipStreamEvent.archiveError "zip failed".data) "aaaaaaaaaaaaaaaaaaaaaaaaaaaaaaaaaaaaaaaaaaaaaaaaaaaaaaaaaaaaaaaa".data
            (some [⟨"a.json".data, "x".data, "raw".data⟩])).1
    ∧ downloadHandler "/".data "/tmp".data "aaaaaaaaaaaaaaaaaaaaaaaaaaaaaaaaaaaaaaaaaaaaaaaaaaaaaaaaaaaaaaaa".data "ar_output.zip".data true
        = DownloadResult.served (pathJoin (pathJoin "/tmp".data "aaaaaaaaaaaaaaaaaaaaaaaaaaaaaaaaaaaaaaaaaaaaaaaaaaaaaaaaaaaaaaaa".data) "ar_output.zip".data) := by
  refine ⟨?_, rfl, ?_, ?_, ?_, ?_⟩
  · intro o
    cases o <;> simp [createZip]
  · decide
  · decide
  · decide
  · decide

lemma processFiles_foldl_init (decode : FileData → List Nat) (cwd outputDir : Chars)
    (l : List FileData) : ∀ init : List FsOp,
    l.foldl (fun ops fd => ops ++ fileOps decode cwd outputDir fd) init
      = init ++ processFiles decode cwd outputDir l := by
  induction l with
  | nil => intro init; simp [processFiles]
  | cons fd t ih =>
      intro init
      rw [List.foldl_cons, ih]
      conv_rhs => rw [processFiles, List.foldl_cons, ih]
      simp

lemma processFiles_cons (decode : FileData → List Nat) (cwd outputDir : Chars)
    (fd : FileData) (l : List FileData) :
    processFiles decode cwd outputDir (fd :: l)
      = fileOps decode cwd outputDir fd ++ processFiles decode cwd outputDir l := by
  rw [processFiles, List.foldl_cons, processFiles_foldl_init]
  simp

lemma processFiles_append (decode : FileData → List Nat) (cwd outputDir : Chars)
    (l₁ l₂ : List FileData) :
    processFiles decode cwd outputDir (l₁ ++ l₂)
      = processFiles decode cwd outputDir l₁ ++ processFiles decode cwd outputDir l₂ := by
  rw [processFiles, List.foldl_append, processFiles_foldl_init]
  rfl

lemma mem_processFiles (decode : FileData → List Nat) (cwd outputDir : Chars)
    (x : FsOp) (fd : FileData) (l : List FileData) (hfd : fd ∈ l)
    (hx : x ∈ fileOps decode cwd outputDir fd) : x ∈ processFiles decode cwd outputDir l := by
  induction l with
  | nil => cases hfd
  | cons a t ih =>
      rw [processFiles_cons]
      rcases List.mem_cons.mp hfd with rfl | h
      · exact List.mem_append_left _ hx
      · exact List.mem_append_right _ (ih h)

lemma fileOps_spec (decode : FileData → List Nat) (cwd outputDir : Chars) (fd : FileData) :
    (failsValidation decode cwd outputDir fd
      ∧ (fileOps decode cwd outputDir fd = []
         ∨ fileOps decode cwd outputDir fd
             = [FsOp.ensureDir (dirname (pathJoin outputDir (sanitizePath fd.path)))]))
    ∨ (¬ failsValidation decode cwd outputDir fd
      ∧ fileOps decode cwd outputDir fd
          = [FsOp.ensureDir (dirname (pathJoin outputDir (sanitizePath fd.path))),
             FsOp.writeFile (pathJoin outputDir (sanitizePath fd.path)) (decode fd)]) := by
  simp only [fileOps]
  split_ifs with h1 h2 h3 h4 h5
  · exact Or.inl ⟨by rcases h1 with h | h; exacts [Or.inl h, Or.inr (Or.inl h)], Or.inl rfl⟩
  · exact Or.inl ⟨Or.inr (Or.inr (Or.inl h2)), Or.inl rfl⟩
  · exact Or.inl ⟨Or.inr (Or.inr (Or.inr (Or.inl h3))), Or.inl rfl⟩
  · exact Or.inl ⟨Or.inr (Or.inr (Or.inr (Or.inr (Or.inl h4)))), Or.inr rfl⟩
  · exact Or.inl ⟨Or.inr (Or.inr (Or.inr (Or.inr (Or.inr h5)))), Or.inr rfl⟩
  · refine Or.inr ⟨?_, by simp⟩
    rintro (h | h | h | h | h | h)
    · exact h1 (Or.inl h)
    · exact h1 (Or.inr h)
    · exact h2 h
    · exact h3 h
    · exact h4 h
    · exact h5 h

lemma fileOps_no_write (decode : FileData → List Nat) (cwd outputDir : Chars) (fd : FileData)
    (hbad : failsValidation decode cwd outputDir fd) :
    ∀ p b, FsOp.writeFile p b ∉ fileOps decode cwd outputDir fd := by
  intro p b hmem
  rcases fileOps_spec decode cwd outputDir fd with ⟨_, h | h⟩ | ⟨hn, _⟩
  · rw [h] at hmem; cases hmem
  · rw [h] at hmem
    rcases List.mem_singleton.mp hmem with h'
    cases h'
  · exact hn hbad

/-- C7: in a create-zip batch, a file entry failing any of the per-file
validations is skipped — it contributes no file write — while the operations
for the entries before and after it are unchanged, every entry passing
validation still gets its file written, and the batch as a whole still succeeds
and produces the archive. -/
theorem c7_bad_entry_is_skipped (decode : FileData → List Nat)
    (cwd tempDir sessionId outputDir zipPath : Chars)
    (pre post : List FileData) (bad : FileData)
    (houtDef : outputDir = pathJoin (pathJoin tempDir sessionId) "output".data)
    (hzipDef : zipPath = pathJoin (pathJoin tempDir sessionId) "ar_output.zip".data)
    (hsid : isValidSessionId sessionId = true)
    (hcap : (pre ++ bad :: post).length ≤ 1000)
    (hpath : validatePath cwd tempDir (pathJoin tempDir sessionId) = true)
    (hbad : failsValidation decode cwd outputDir bad) :
    createZipHandler decode cwd tempDir ZipStreamEvent.close sessionId
        (some (pre ++ bad :: post))
      = (FsOp.ensureDir outputDir
          :: (processFiles decode cwd outputDir pre
              ++ (fileOps decode cwd outputDir bad
                  ++ (processFiles decode cwd outputDir post
                      ++ [FsOp.zipArchive outputDir zipPath]))),
         ZipResult.success ("/download/".data ++ sessionId ++ "/ar_output.zip".data))
    ∧ (∀ p b, FsOp.writeFile p b ∉ fileOps decode cwd outputDir bad)
    ∧ (∀ fd ∈ pre ++ post, ¬ failsValidation decode cwd outputDir fd →
        FsOp.writeFile (pathJoin outputDir (sanitizePath fd.path)) (decode fd)
          ∈ (createZipHandler decode cwd tempDir ZipStreamEvent.close sessionId
              (some (pre ++ bad :: post))).1) := by
  subst houtDef
  subst hzipDef
  have hne : (pre ++ bad :: post).length ≠ 0 := by simp
  have hcap' : ¬ 1000 < (pre ++ bad :: post).length := by omega
  have hdecomp : processFiles decode cwd (pathJoin (pathJoin tempDir sessionId) "output".data)
      (pre ++ bad :: post)
      = processFiles decode cwd (pathJoin (pathJoin tempDir sessionId) "output".data) pre
        ++ (fileOps decode cwd (pathJoin (pathJoin tempDir sessionId) "output".data) bad
            ++ processFiles decode cwd (pathJoin (pathJoin tempDir sessionId) "output".data) post) := by
    rw [processFiles_append, processFiles_cons]
  have hmain : createZipHandler decode cwd tempDir ZipStreamEvent.close sessionId
      (some (pre ++ bad :: post))
      = (FsOp.ensureDir (pathJoin (pathJoin tempDir sessionId) "output".data)
          :: (processFiles decode cwd (pathJoin (pathJoin tempDir sessionId) "output".data) pre
              ++ (fileOps decode cwd (pathJoin (pathJoin tempDir sessionId) "output".data) bad
                  ++ (processFiles decode cwd (pathJoin (pathJoin tempDir sessionId) "output".data) post
                      ++ [FsOp.zipArchive (pathJoin (pathJoin tempDir sessionId) "output".data)
                            (pathJoin (pathJoin tempDir sessionId) "ar_output.zip".data)]))),
         ZipResult.success ("/download/".data ++ sessionId ++ "/ar_output.zip".data)) := by
    simp only [createZipHandler, hsid, createZip]
    rw [hpath]
    simp only [Bool.true_eq_false, if_false, hne, if_neg hne, if_neg hcap', hdecomp]
    simp [List.append_assoc]
  refine ⟨hmain, fileOps_no_write decode cwd _ bad hbad, ?_⟩
  intro fd hfd hok
  rcases fileOps_spec decode cwd (pathJoin (pathJoin tempDir sessionId) "output".data) fd
    with ⟨hf, _⟩ | ⟨_, heq⟩
  · exact absurd hf hok
  · have hmem : FsOp.writeFile
        (pathJoin (pathJoin (pathJoin tempDir sessionId) "output".data) (sanitizePath fd.path))
        (decode fd)
        ∈ fileOps decode cwd (pathJoin (pathJoin tempDir sessionId) "output".data) fd := by
      rw [heq]; simp
    rw [hmain]
    rcases List.mem_append.mp hfd with h | h
    · have := mem_processFiles decode cwd _ _ fd pre h hmem
      simp only [List.mem_cons, List.mem_append]
      tauto
    · have := mem_processFiles decode cwd _ _ fd post h hmem
      simp only [List.mem_cons, List.mem_append]
      tauto

/-- C7 witness: a traversal entry `../../etc/passwd` fails validation while a
plain `a.json` entry in the same batch is still written; evaluated at a
concrete session. -/
theorem c7_witness :
    FsOp.writeFile
        (pathJoin (pathJoin (pathJoin "/tmp".data
            "aaaaaaaaaaaaaaaaaaaaaaaaaaaaaaaaaaaaaaaaaaaaaaaaaaaaaaaaaaaaaaaa".data)
            "output".data)
          (sanitizePath "a.json".data)) []
      ∈ (createZipHandler (fun _ => []) "/".data "/tmp".data ZipStreamEvent.close
          "aaaaaaaaaaaaaaaaaaaaaaaaaaaaaaaaaaaaaaaaaaaaaaaaaaaaaaaaaaaaaaaa".data
          (some ([⟨"a.json".data, "x".data, "raw".data⟩]
                  ++ ⟨"../../etc/passwd".data, "x".data, "raw".data⟩ :: []))).1 :=
  (c7_bad_entry_is_skipped (fun _ => []) "/".data "/tmp".data
      "aaaaaaaaaaaaaaaaaaaaaaaaaaaaaaaaaaaaaaaaaaaaaaaaaaaaaaaaaaaaaaaa".data
      _ _ [⟨"a.json".data, "x".data, "raw".data⟩] []
      ⟨"../../etc/passwd".data, "x".data, "raw".data⟩ rfl rfl (by decide) (by decide)
      (by decide) (by decide)).2.2
    ⟨"a.json".data, "x".data, "raw".data⟩ (by simp) (by decide)

/-! ## Path algebra for C1 -/

lemma splitSlash_ne_nil (l : Chars) : splitSlash l ≠ [] := by
  cases l with
  | nil => simp [splitSlash]
  | cons c rest =>
      simp only [splitSlash]
      split <;> simp

lemma mem_splitSlash_no_slash : ∀ (l : Chars) (seg : Chars), seg ∈ splitSlash l → '/' ∉ seg := by
  intro l
  induction l with
  | nil =>
      intro seg h
      simp only [splitSlash, List.mem_singleton] at h
      subst h; simp
  | cons c rest ih =>
      intro seg h
      by_cases hc : c = '/'
      · subst hc
        rw [splitSlash, if_pos rfl] at h
        rcases List.mem_cons.mp h with rfl | h
        · simp
        · exact ih seg h
      · obtain ⟨s, ss, hss⟩ := List.exists_cons_of_ne_nil (splitSlash_ne_nil rest)
        rw [splitSlash, if_neg hc, hss] at h
        simp only [List.headI, List.tail_cons] at h
        rcases List.mem_cons.mp h with rfl | h
        · intro hmem
          rcases List.mem_cons.mp hmem with h' | h'
          · exact hc h'.symm
          · exact ih s (hss ▸ List.mem_cons_self s ss) h'
        · exact ih seg (hss ▸ List.mem_cons_of_mem s h)

lemma joinSegs_cons (a : Chars) (l : List Chars) (h : l ≠ []) :
    joinSegs (a :: l) = a ++ '/' :: joinSegs l := by
  obtain ⟨b, t, rfl⟩ := List.exists_cons_of_ne_nil h
  rfl

lemma joinSegs_cons_cons (c : Char) (f : Chars) (rest : List Chars) :
    joinSegs ((c :: f) :: rest) = c :: joinSegs (f :: rest) := by
  cases rest with
  | nil => rfl
  | cons b t =>
      rw [joinSegs_cons (c :: f) (b :: t) (by simp), joinSegs_cons f (b :: t) (by simp)]
      simp

lemma joinSegs_splitSlash : ∀ l : Chars, joinSegs (splitSlash l) = l := by
  intro l
  induction l with
  | nil => rfl
  | cons c rest ih =>
      by_cases hc : c = '/'
      · subst hc
        rw [splitSlash, if_pos rfl, joinSegs_cons _ _ (splitSlash_ne_nil rest), ih]
        rfl
      · obtain ⟨s, ss, hss⟩ := List.exists_cons_of_ne_nil (splitSlash_ne_nil rest)
        rw [splitSlash, if_neg hc, hss]
        simp only [List.headI, List.tail_cons]
        rw [joinSegs_cons_cons]
        rw [hss] at ih
        rw [ih]

lemma joinSegs_append (l₁ l₂ : List Chars) (h₁ : l₁ ≠ []) (h₂ : l₂ ≠ []) :
    joinSegs (l₁ ++ l₂) = joinSegs l₁ ++ '/' :: joinSegs l₂ := by
  induction l₁ with
  | nil => exact absurd rfl h₁
  | cons a t ih =>
      cases t with
      | nil =>
          rw [List.singleton_append, joinSegs_cons _ _ h₂]
          rfl
      | cons b t' =>
          rw [List.cons_append, joinSegs_cons _ _ (by simp), joinSegs_cons _ _ (by simp),
            ih (by simp)]
          simp

lemma splitSlash_no_slash : ∀ s : Chars, '/' ∉ s → splitSlash s = [s] := by
  intro s
  induction s with
  | nil => intro _; rfl
  | cons c t ih =>
      intro h
      have hc : c ≠ '/' := fun hc => h (hc ▸ List.mem_cons_self c t)
      have ht : '/' ∉ t := fun hm => h (List.mem_cons_of_mem c hm)
      rw [splitSlash, if_neg hc, ih ht]
      rfl

lemma splitSlash_append_cons (s b : Chars) (h : '/' ∉ s) :
    splitSlash (s ++ '/' :: b) = s :: splitSlash b := by
  induction s with
  | nil => rw [List.nil_append, splitSlash, if_pos rfl]
  | cons c t ih =>
      have hc : c ≠ '/' := fun hc => h (hc ▸ List.mem_cons_self c t)
      have ht : '/' ∉ t := fun hm => h (List.mem_cons_of_mem c hm)
      rw [List.cons_append, splitSlash, if_neg hc, ih ht]
      simp

lemma splitSlash_joinSegs : ∀ segs : List Chars, segs ≠ [] →
    (∀ seg ∈ segs, '/' ∉ seg) → splitSlash (joinSegs segs) = segs := by
  intro segs
  induction segs with
  | nil => intro h; exact absurd rfl h
  | cons s ss ih =>
      intro _ hns
      cases ss with
      | nil => exact splitSlash_no_slash s (hns s (List.mem_cons_self s []))
      | cons b t =>
          rw [joinSegs_cons _ _ (by simp),
            splitSlash_append_cons _ _ (hns s (List.mem_cons_self s (b :: t))),
            ih (by simp) (fun seg hseg => hns seg (List.mem_cons_of_mem s hseg))]

lemma splitSlash_slash_cons (l : Chars) : splitSlash ('/' :: l) = [] :: splitSlash l := by
  rw [splitSlash, if_pos rfl]

lemma splitSlash_joinSegs_append (segs : List Chars) (b : Chars) (hne : segs ≠ [])
    (hns : ∀ seg ∈ segs, '/' ∉ seg) :
    splitSlash (joinSegs segs ++ '/' :: b) = segs ++ splitSlash b := by
  induction segs with
  | nil => exact absurd rfl hne
  | cons s ss ih =>
      cases ss with
      | nil =>
          rw [show joinSegs [s] = s from rfl, splitSlash_append_cons _ _
            (hns s (List.mem_cons_self s []))]
          rfl
      | cons c t =>
          rw [joinSegs_cons _ _ (by simp), List.append_assoc, List.cons_append,
            splitSlash_append_cons _ _ (hns s (List.mem_cons_self s (c :: t))),
            ih (by simp) (fun seg hseg => hns seg (List.mem_cons_of_mem s hseg))]
          rfl

lemma keepSeg_false_iff (s : Chars) : keepSeg s = false ↔ (s = [] ∨ s = ['.']) := by
  simp only [keepSeg, Bool.not_eq_false', Bool.or_eq_true, beq_iff_eq]

lemma keepSeg_true_iff (s : Chars) : keepSeg s = true ↔ (¬s = [] ∧ ¬s = ['.']) := by
  simp [keepSeg]

lemma foldl_normStep_no_dotdot (abs : Bool) : ∀ (ss : List Chars) (acc : List Chars),
    (∀ seg ∈ ss, seg ≠ dotdot) →
    ss.foldl (normStep abs) acc = acc ++ ss.filter keepSeg := by
  intro ss
  induction ss with
  | nil => intro acc _; simp
  | cons s t ih =>
      intro acc h
      have hs : s ≠ dotdot := h s (List.mem_cons_self s t)
      have ht : ∀ seg ∈ t, seg ≠ dotdot := fun seg hseg => h seg (List.mem_cons_of_mem s hseg)
      rw [List.foldl_cons, List.filter_cons]
      by_cases hk : s = [] ∨ s = ['.']
      · rw [normStep, if_pos hk, if_neg (by simp [keepSeg_true_iff]; tauto), ih acc ht]
      · push_neg at hk
        rw [normStep, if_neg (by tauto), if_neg hs,
          if_pos (keepSeg_true_iff s |>.mpr ⟨hk.1, hk.2⟩), ih (acc ++ [s]) ht]
        simp

lemma normSegs_rel_shape : ∀ (ss : List Chars) (acc : List Chars),
    (∀ seg ∈ ss, '/' ∉ seg) →
    (∃ k clean, acc = List.replicate k dotdot ++ clean ∧
      ∀ seg ∈ clean, plainSeg seg ∧ '/' ∉ seg) →
    ∃ k clean, ss.foldl (normStep false) acc = List.replicate k dotdot ++ clean ∧
      ∀ seg ∈ clean, plainSeg seg ∧ '/' ∉ seg := by
  intro ss
  induction ss with
  | nil => intro acc _ hacc; exact hacc
  | cons s t ih =>
      intro acc hss hacc
      rw [List.foldl_cons]
      refine ih (normStep false acc s) (fun seg hseg => hss seg (List.mem_cons_of_mem s hseg)) ?_
      obtain ⟨k, clean, rfl, hclean⟩ := hacc
      by_cases h1 : s = [] ∨ s = ['.']
      · rw [normStep, if_pos h1]
        exact ⟨k, clean, rfl, hclean⟩
      · by_cases h2 : s = dotdot
        · subst h2
          rw [normStep, if_neg h1, if_pos rfl]
          cases clean with
          | cons c cs =>
              have hgl := List.getLast?_eq_getLast (c :: cs) (by simp)
              have hlast : (List.replicate k dotdot ++ c :: cs).getLast? ≠ some dotdot := by
                rw [List.getLast?_append, hgl]
                simp only [Option.or_some, ne_eq, Option.some.injEq]
                exact (hclean _ (List.getLast_mem (by simp))).1.2.2
              rw [if_pos ⟨by simp, hlast⟩, List.dropLast_append_of_ne_nil _ (by simp)]
              exact ⟨k, (c :: cs).dropLast, rfl,
                fun seg hseg => hclean seg (List.dropLast_subset _ hseg)⟩
          | nil =>
              cases k with
              | zero =>
                  rw [if_neg (by simp)]
                  exact ⟨1, [], by simp [normStep], by simp⟩
              | succ k' =>
                  have hlast : (List.replicate (k' + 1) dotdot ++ ([] : List Chars)).getLast?
                      = some dotdot := by
                    rw [List.append_nil, List.replicate_succ', List.getLast?_concat]
                  rw [if_neg (by rw [hlast]; simp)]
                  refine ⟨k' + 2, [], ?_, by simp⟩
                  rw [if_neg (by simp)]
                  rw [List.append_nil, ← List.replicate_succ']
                  simp
        · push_neg at h1
          rw [normStep, if_neg (by tauto), if_neg h2]
          refine ⟨k, clean ++ [s], by rw [List.append_assoc], ?_⟩
          intro seg hseg
          rcases List.mem_append.mp hseg with h | h
          · exact hclean seg h
          · rcases List.mem_singleton.mp h with rfl
            exact ⟨⟨h1.1, h1.2, h2⟩, hss _ (List.mem_cons_self _ t)⟩

lemma foldl_normStep_true_plain : ∀ (ss : List Chars) (acc : List Chars),
    (∀ seg ∈ ss, '/' ∉ seg) → (∀ seg ∈ acc, plainSeg seg ∧ '/' ∉ seg) →
    ∀ seg ∈ ss.foldl (normStep true) acc, plainSeg seg ∧ '/' ∉ seg := by
  intro ss
  induction ss with
  | nil => intro acc _ hacc; exact hacc
  | cons s t ih =>
      intro acc hss hacc
      rw [List.foldl_cons]
      refine ih (normStep true acc s) (fun seg hseg => hss seg (List.mem_cons_of_mem s hseg)) ?_
      by_cases h1 : s = [] ∨ s = ['.']
      · rw [normStep, if_pos h1]; exact hacc
      · by_cases h2 : s = dotdot
        · subst h2
          rw [normStep, if_neg h1, if_pos rfl]
          by_cases h3 : acc ≠ [] ∧ acc.getLast? ≠ some dotdot
          · rw [if_pos h3]
            exact fun seg hseg => hacc seg (List.dropLast_subset _ hseg)
          · rw [if_neg h3, if_pos rfl]
            exact hacc
        · push_neg at h1
          rw [normStep, if_neg (by tauto), if_neg h2]
          intro seg hseg
          rcases List.mem_append.mp hseg with h | h
          · exact hacc seg h
          · rcases List.mem_singleton.mp h with rfl
            exact ⟨⟨h1.1, h1.2, h2⟩, hss _ (List.mem_cons_self _ t)⟩

lemma strip_nil : stripLeadingParents [] = [] := rfl

lemma strip_dd_slash (l : Chars) :
    stripLeadingParents ('.' :: '.' :: '/' :: l) = stripLeadingParents l := rfl

lemma strip_dd_bslash (l : Chars) :
    stripLeadingParents ('.' :: '.' :: '\\' :: l) = stripLeadingParents l := rfl

lemma strip_head_ne (c : Char) (l : Chars) (h : c ≠ '.') :
    stripLeadingParents (c :: l) = c :: l := by
  rw [stripLeadingParents.eq_def]
  split <;> simp_all

lemma strip_single (c : Char) : stripLeadingParents [c] = [c] := by
  rw [stripLeadingParents.eq_def]
  split <;> simp_all

lemma strip_pair (c₁ c₂ : Char) : stripLeadingParents [c₁, c₂] = [c₁, c₂] := by
  rw [stripLeadingParents.eq_def]
  split <;> simp_all

lemma strip_second_ne (c : Char) (l : Chars) (h : c ≠ '.') :
    stripLeadingParents ('.' :: c :: l) = '.' :: c :: l := by
  rw [stripLeadingParents.eq_def]
  split <;> simp_all

lemma strip_third_ne (c : Char) (l : Chars) (h1 : c ≠ '/') (h2 : c ≠ '\\') :
    stripLeadingParents ('.' :: '.' :: c :: l) = '.' :: '.' :: c :: l := by
  rw [stripLeadingParents.eq_def]
  split <;> simp_all

lemma strip_no_dd_aux : ∀ (n : Nat) (first : Chars) (rest : List Chars),
    (joinSegs (first :: rest)).length ≤ n → '/' ∉ first →
    (∀ seg ∈ rest, '/' ∉ seg ∧ seg ≠ dotdot) →
    stripLeadingParents (joinSegs (first :: rest)) = dotdot
    ∨ ∀ seg ∈ splitSlash (stripLeadingParents (joinSegs (first :: rest))), seg ≠ dotdot := by
  intro n
  induction n with
  | zero =>
      intro first rest hlen _ _
      have h0 : joinSegs (first :: rest) = [] := List.length_eq_zero.mp (Nat.le_zero.mp hlen)
      right
      rw [h0, strip_nil]
      intro seg hseg
      simp only [splitSlash, List.mem_singleton] at hseg
      subst hseg
      simp [dotdot]
  | succ n ih =>
      intro first rest hlen hf hr
      have hns : ∀ x ∈ first :: rest, '/' ∉ x := by
        intro x hx
        rcases List.mem_cons.mp hx with rfl | h
        · exact hf
        · exact (hr x h).1
      have hsplit : splitSlash (joinSegs (first :: rest)) = first :: rest :=
        splitSlash_joinSegs _ (by simp) hns
      have hid : stripLeadingParents (joinSegs (first :: rest)) = joinSegs (first :: rest) →
          first ≠ dotdot →
          stripLeadingParents (joinSegs (first :: rest)) = dotdot
          ∨ ∀ seg ∈ splitSlash (stripLeadingParents (joinSegs (first :: rest))), seg ≠ dotdot := by
        intro he hfd
        right
        rw [he, hsplit]
        intro seg hseg
        rcases List.mem_cons.mp hseg with rfl | h
        · exact hfd
        · exact (hr seg h).2
      cases first with
      | nil =>
          refine hid ?_ (by simp [dotdot])
          cases rest with
          | nil => exact strip_nil
          | cons r rs =>
              rw [joinSegs_cons _ _ (by simp), List.nil_append]
              exact strip_head_ne '/' _ (by decide)
      | cons c1 f1 =>
          by_cases hc1 : c1 = '.'
          · subst hc1
            cases f1 with
            | nil =>
                refine hid ?_ (by simp [dotdot])
                cases rest with
                | nil => exact strip_single '.'
                | cons r rs =>
                    rw [joinSegs_cons _ _ (by simp)]
                    exact strip_second_ne '/' _ (by decide)
            | cons c2 f2 =>
                by_cases hc2 : c2 = '.'
                · subst hc2
                  cases f2 with
                  | nil =>
                      cases rest with
                      | nil => left; exact strip_pair '.' '.'
                      | cons r rs =>
                          have hjoin : joinSegs (('.' :: '.' :: ([] : Chars)) :: r :: rs)
                              = '.' :: '.' :: '/' :: joinSegs (r :: rs) := by
                            rw [joinSegs_cons _ _ (by simp)]
                            rfl
                          rw [hjoin, strip_dd_slash]
                          have hlen' : (joinSegs (r :: rs)).length ≤ n := by
                            rw [hjoin] at hlen
                            simp only [List.length_cons] at hlen
                            omega
                          exact ih r rs hlen' (hr r (List.mem_cons_self r rs)).1
                            (fun seg hseg => hr seg (List.mem_cons_of_mem r hseg))
                  | cons c3 f3 =>
                      have hc3slash : c3 ≠ '/' := by
                        intro h
                        apply hf
                        rw [h]
                        simp
                      have hjoin : joinSegs (('.' :: '.' :: c3 :: f3) :: rest)
                          = '.' :: '.' :: c3 :: joinSegs (f3 :: rest) := by
                        rw [joinSegs_cons_cons, joinSegs_cons_cons, joinSegs_cons_cons]
                      by_cases hc3 : c3 = '\\'
                      · subst hc3
                        rw [hjoin, strip_dd_bslash]
                        have hlen' : (joinSegs (f3 :: rest)).length ≤ n := by
                          rw [hjoin] at hlen
                          simp only [List.length_cons] at hlen
                          omega
                        refine ih f3 rest hlen' (fun h => hf (by simp [h])) hr
                      · refine hid ?_ (by simp [dotdot])
                        rw [hjoin]
                        exact strip_third_ne c3 _ hc3slash hc3
                · refine hid ?_ (by simp [dotdot, hc2])
                  have hjoin : joinSegs (('.' :: c2 :: f2) :: rest)
                      = '.' :: c2 :: joinSegs (f2 :: rest) := by
                    rw [joinSegs_cons_cons, joinSegs_cons_cons]
                  rw [hjoin]
                  exact strip_second_ne c2 _ hc2
          · refine hid ?_ (by simp [dotdot, hc1])
            rw [joinSegs_cons_cons]
            exact strip_head_ne c1 _ hc1

lemma strip_replicate_no_dd : ∀ (k : Nat) (segs : List Chars),
    (∀ seg ∈ segs, '/' ∉ seg ∧ seg ≠ dotdot) →
    stripLeadingParents (joinSegs (List.replicate k dotdot ++ segs)) = dotdot
    ∨ ∀ seg ∈ splitSlash (stripLeadingParents (joinSegs (List.replicate k dotdot ++ segs))),
        seg ≠ dotdot := by
  intro k
  induction k with
  | zero =>
      intro segs hsegs
      simp only [List.replicate, List.nil_append]
      cases segs with
      | nil =>
          right
          rw [show joinSegs [] = [] from rfl, strip_nil]
          intro seg hseg
          simp only [splitSlash, List.mem_singleton] at hseg
          subst hseg
          simp [dotdot]
      | cons s ss =>
          exact strip_no_dd_aux (joinSegs (s :: ss)).length s ss le_rfl
            (hsegs s (List.mem_cons_self s ss)).1
            (fun seg hseg => hsegs seg (List.mem_cons_of_mem s hseg))
  | succ k' ih =>
      intro segs hsegs
      by_cases hemp : List.replicate k' dotdot ++ segs = []
      · left
        rw [List.replicate_succ, List.cons_append, hemp]
        exact strip_pair '.' '.'
      · rw [List.replicate_succ, List.cons_append, joinSegs_cons _ _ hemp,
          show dotdot ++ '/' :: joinSegs (List.replicate k' dotdot ++ segs)
            = '.' :: '.' :: '/' :: joinSegs (List.replicate k' dotdot ++ segs) from rfl,
          strip_dd_slash]
        exact ih segs hsegs

lemma sanitizePath_eq_strip (p : Chars) :
    sanitizePath p = stripLeadingParents (pathNormalize p) := by
  simp only [sanitizePath]
  exact joinSegs_splitSlash _

lemma pathNormalize_shape (p : Chars) :
    (stripLeadingParents (pathNormalize p) = pathNormalize p
      ∧ ∀ seg ∈ splitSlash (pathNormalize p), seg ≠ dotdot)
    ∨ (∃ k segs, pathNormalize p = joinSegs (List.replicate k dotdot ++ segs)
      ∧ ∀ seg ∈ segs, '/' ∉ seg ∧ seg ≠ dotdot) := by
  by_cases hp : p = []
  · subst hp
    right
    exact ⟨0, [['.']], by rfl, by decide⟩
  · have hnodd_split : ∀ seg ∈ splitSlash p, '/' ∉ seg := mem_splitSlash_no_slash p
    by_cases habs : p.headD ' ' = '/'
    · left
      have hS := foldl_normStep_true_plain (splitSlash p) [] hnodd_split (by simp)
      have he : pathNormalize p
          = '/' :: (if joinSegs (normSegs true (splitSlash p)) ≠ []
                ∧ decide (p.getLast? = some '/') = true
              then joinSegs (normSegs true (splitSlash p)) ++ ['/']
              else joinSegs (normSegs true (splitSlash p))) := by
        simp only [pathNormalize, if_neg hp, decide_eq_true habs]
        simp
      constructor
      · rw [he]
        exact strip_head_ne '/' _ (by decide)
      · rw [he, splitSlash_slash_cons]
        intro seg hseg
        rcases List.mem_cons.mp hseg with rfl | hseg
        · simp [dotdot]
        · by_cases hcond : joinSegs (normSegs true (splitSlash p)) ≠ []
              ∧ decide (p.getLast? = some '/') = true
          · rw [if_pos hcond] at hseg
            have hSne : normSegs true (splitSlash p) ≠ [] := by
              intro h
              exact hcond.1 (by rw [h]; rfl)
            rw [show joinSegs (normSegs true (splitSlash p)) ++ ['/']
                  = joinSegs (normSegs true (splitSlash p)) ++ '/' :: joinSegs [[]] from rfl,
              splitSlash_joinSegs_append _ _ hSne (fun s hs => (hS s hs).2)] at hseg
            rcases List.mem_append.mp hseg with h | h
            · exact (hS seg h).1.2.2
            · simp only [splitSlash, List.mem_singleton] at h
              subst h
              simp [dotdot]
          · rw [if_neg hcond] at hseg
            by_cases hSnil : normSegs true (splitSlash p) = []
            · rw [hSnil] at hseg
              simp only [show joinSegs [] = [] from rfl, splitSlash, List.mem_singleton] at hseg
              subst hseg
              simp [dotdot]
            · rw [splitSlash_joinSegs _ hSnil (fun s hs => (hS s hs).2)] at hseg
              exact (hS seg hseg).1.2.2
    · right
      obtain ⟨k, clean, hfold, hclean⟩ :=
        normSegs_rel_shape (splitSlash p) [] hnodd_split ⟨0, [], rfl, by simp⟩
      have hfold' : normSegs false (splitSlash p) = List.replicate k dotdot ++ clean := hfold
      have habs' : decide (p.headD ' ' = '/') = false := decide_eq_false habs
      have he : pathNormalize p
          = (if (if joinSegs (normSegs false (splitSlash p)) = [] then ['.']
                else joinSegs (normSegs false (splitSlash p))) ≠ []
               ∧ decide (p.getLast? = some '/') = true
             then (if joinSegs (normSegs false (splitSlash p)) = [] then ['.']
                else joinSegs (normSegs false (splitSlash p))) ++ ['/']
             else (if joinSegs (normSegs false (splitSlash p)) = [] then ['.']
                else joinSegs (normSegs false (splitSlash p)))) := by
        simp only [pathNormalize, if_neg hp, habs']
        simp
      by_cases hbody : joinSegs (normSegs false (splitSlash p)) = []
      · rw [hbody] at he
        simp only [if_pos rfl] at he
        by_cases htr : decide (p.getLast? = some '/') = true
        · rw [if_pos ⟨by simp, htr⟩] at he
          exact ⟨0, [['.'], []], by rw [he]; rfl, by decide⟩
        · rw [if_neg (by tauto)] at he
          exact ⟨0, [['.']], by rw [he]; rfl, by decide⟩
      · rw [if_neg hbody] at he
        have hXne : List.replicate k dotdot ++ clean ≠ [] := by
          intro h
          rw [hfold', h] at hbody
          exact hbody rfl
        by_cases htr : decide (p.getLast? = some '/') = true
        · rw [if_pos ⟨hbody, htr⟩] at he
          refine ⟨k, clean ++ [[]], ?_, ?_⟩
          · rw [he, hfold', ← List.append_assoc,
              joinSegs_append _ [[]] hXne (by simp)]
            rfl
          · intro seg hseg
            rcases List.mem_append.mp hseg with h | h
            · exact ⟨(hclean seg h).2, (hclean seg h).1.2.2⟩
            · rcases List.mem_singleton.mp h with rfl
              simp [dotdot]
        · rw [if_neg (by tauto)] at he
          refine ⟨k, clean, by rw [he, hfold'], ?_⟩
          intro seg hseg
          exact ⟨(hclean seg hseg).2, (hclean seg hseg).1.2.2⟩

lemma sanitizePath_shape (p : Chars) :
    sanitizePath p = dotdot
    ∨ ∀ seg ∈ splitSlash (sanitizePath p), seg ≠ dotdot := by
  rw [sanitizePath_eq_strip]
  rcases pathNormalize_shape p with ⟨hid, hsegs⟩ | ⟨k, segs, he, hsegs⟩
  · right
    rw [hid]
    exact hsegs
  · rw [he]
    exact strip_replicate_no_dd k segs hsegs

lemma filter_keepSeg_of_plain (segs : List Chars) (h : ∀ s ∈ segs, plainSeg s) :
    segs.filter keepSeg = segs := by
  induction segs with
  | nil => rfl
  | cons s t ih =>
      rw [List.filter_cons,
        if_pos ((keepSeg_true_iff s).mpr
          ⟨(h s (List.mem_cons_self s t)).1, (h s (List.mem_cons_self s t)).2.1⟩),
        ih (fun x hx => h x (List.mem_cons_of_mem s hx))]

lemma isPrefixOf_length_le : ∀ (a b : Chars), a.isPrefixOf b = true → a.length ≤ b.length := by
  intro a
  induction a with
  | nil => intro b _; simp
  | cons x xs ih =>
      intro b h
      cases b with
      | nil => simp [List.isPrefixOf] at h
      | cons y ys =>
          simp only [List.isPrefixOf, Bool.and_eq_true] at h
          simp only [List.length_cons]
          exact Nat.succ_le_succ (ih ys h.2)

lemma joinSegs_ne_nil (s : Chars) (ss : List Chars) (hs : s ≠ []) :
    joinSegs (s :: ss) ≠ [] := by
  obtain ⟨c, f, rfl⟩ := List.exists_cons_of_ne_nil hs
  rw [joinSegs_cons_cons]
  simp

lemma pathResolve_abs_eq (cwd t : Chars) :
    pathResolve cwd ('/' :: t) = '/' :: joinSegs (normSegs true (splitSlash ('/' :: t))) := by
  simp [pathResolve]

lemma normSegs_nil_cons_plain (segs : List Chars)
    (hnd : ∀ s ∈ segs, s ≠ dotdot) :
    normSegs true (([] : Chars) :: segs) = segs.filter keepSeg := by
  rw [normSegs, foldl_normStep_no_dotdot true _ []
    (by
      intro seg h
      rcases List.mem_cons.mp h with rfl | h
      · simp [dotdot]
      · exact hnd seg h),
    List.nil_append, List.filter_cons, if_neg (by simp [keepSeg])]

lemma pathResolve_fixed (cwd : Chars) (outSegs : List Chars) (hne : outSegs ≠ [])
    (hpl : ∀ s ∈ outSegs, plainSeg s ∧ '/' ∉ s) :
    pathResolve cwd ('/' :: joinSegs outSegs) = '/' :: joinSegs outSegs := by
  rw [pathResolve_abs_eq, splitSlash_slash_cons,
    splitSlash_joinSegs outSegs hne (fun s hs => (hpl s hs).2),
    normSegs_nil_cons_plain outSegs (fun s hs => (hpl s hs).1.2.2),
    filter_keepSeg_of_plain outSegs (fun s hs => (hpl s hs).1)]

lemma pathJoin_eq_norm (a b : Chars) (ha : a ≠ []) (hb : b ≠ []) :
    pathJoin a b = pathNormalize (a ++ '/' :: b) := by
  rw [pathJoin, if_neg (by tauto), if_neg ha, if_neg hb]

lemma pathResolve_pathJoin_noDd (cwd : Chars) (outSegs : List Chars) (safe : Chars)
    (hne : outSegs ≠ []) (hpl : ∀ s ∈ outSegs, plainSeg s ∧ '/' ∉ s)
    (hsne : safe ≠ []) (hnoDd : ∀ seg ∈ splitSlash safe, seg ≠ dotdot) :
    pathResolve cwd (pathJoin ('/' :: joinSegs outSegs) safe)
      = '/' :: joinSegs (outSegs ++ (splitSlash safe).filter keepSeg) := by
  have hFsub : ∀ s ∈ (splitSlash safe).filter keepSeg, s ∈ splitSlash safe :=
    fun s hs => (List.mem_filter.mp hs).1
  have hFplain : ∀ s ∈ (splitSlash safe).filter keepSeg, plainSeg s := by
    intro s hs
    have hk := (keepSeg_true_iff s).mp (List.mem_filter.mp hs).2
    exact ⟨hk.1, hk.2, hnoDd s (hFsub s hs)⟩
  have hFnoslash : ∀ s ∈ (splitSlash safe).filter keepSeg, '/' ∉ s :=
    fun s hs => mem_splitSlash_no_slash safe s (hFsub s hs)
  have hOF_ne : outSegs ++ (splitSlash safe).filter keepSeg ≠ [] := by
    simp [hne]
  have hOFnoslash : ∀ s ∈ outSegs ++ (splitSlash safe).filter keepSeg, '/' ∉ s := by
    intro s hs
    rcases List.mem_append.mp hs with h | h
    · exact (hpl s h).2
    · exact hFnoslash s h
  have hjoin := pathJoin_eq_norm ('/' :: joinSegs outSegs) safe (by simp) hsne
  have hsplit : splitSlash (('/' :: joinSegs outSegs) ++ '/' :: safe)
      = [] :: (outSegs ++ splitSlash safe) := by
    rw [List.cons_append, splitSlash_slash_cons,
      splitSlash_joinSegs_append outSegs safe hne (fun s hs => (hpl s hs).2)]
  have hfold : normSegs true (([] : Chars) :: (outSegs ++ splitSlash safe))
      = outSegs ++ (splitSlash safe).filter keepSeg := by
    rw [normSegs_nil_cons_plain _ (by
      intro s hs
      rcases List.mem_append.mp hs with h | h
      · exact (hpl s h).1.2.2
      · exact hnoDd s h),
      List.filter_append, filter_keepSeg_of_plain outSegs (fun s hs => (hpl s hs).1)]
  have hhead : (('/' :: joinSegs outSegs) ++ '/' :: safe).headD ' ' = '/' := by simp
  have hpne : ('/' :: joinSegs outSegs) ++ '/' :: safe ≠ [] := by simp
  have hbody_ne : joinSegs (outSegs ++ (splitSlash safe).filter keepSeg) ≠ [] := by
    obtain ⟨o1, orest, ho⟩ := List.exists_cons_of_ne_nil hne
    rw [ho, List.cons_append]
    exact joinSegs_ne_nil o1 _ ((hpl o1 (ho ▸ List.mem_cons_self o1 orest)).1.1)
  have hnorm : pathNormalize (('/' :: joinSegs outSegs) ++ '/' :: safe)
      = '/' :: (if joinSegs (outSegs ++ (splitSlash safe).filter keepSeg) ≠ []
            ∧ decide ((('/' :: joinSegs outSegs) ++ '/' :: safe).getLast? = some '/') = true
          then joinSegs (outSegs ++ (splitSlash safe).filter keepSeg) ++ ['/']
          else joinSegs (outSegs ++ (splitSlash safe).filter keepSeg)) := by
    simp only [pathNormalize, if_neg hpne, decide_eq_true hhead]
    rw [hsplit, hfold]
    simp
  rw [hjoin, hnorm]
  by_cases htr : decide ((('/' :: joinSegs outSegs) ++ '/' :: safe).getLast? = some '/') = true
  · rw [if_pos ⟨hbody_ne, htr⟩, pathResolve_abs_eq, splitSlash_slash_cons,
      splitSlash_joinSegs_append (outSegs ++ (splitSlash safe).filter keepSeg) []
        hOF_ne hOFnoslash,
      show splitSlash ([] : Chars) = [[]] from rfl,
      normSegs_nil_cons_plain _ (by
        intro s hs
        rcases List.mem_append.mp hs with h | h
        · rcases List.mem_append.mp h with h' | h'
          · exact (hpl s h').1.2.2
          · exact (hFplain s h').2.2
        · rcases List.mem_singleton.mp h with rfl
          simp [dotdot]),
      List.filter_append, List.filter_append,
      filter_keepSeg_of_plain outSegs (fun s hs => (hpl s hs).1),
      filter_keepSeg_of_plain _ hFplain,
      show List.filter keepSeg [[]] = [] from rfl]
    simp
  · rw [if_neg (by tauto), pathResolve_abs_eq, splitSlash_slash_cons,
      splitSlash_joinSegs (outSegs ++ (splitSlash safe).filter keepSeg) hOF_ne hOFnoslash,
      normSegs_nil_cons_plain _ (by
        intro s hs
        rcases List.mem_append.mp hs with h | h
        · exact (hpl s h).1.2.2
        · exact (hFplain s h).2.2),
      List.filter_append,
      filter_keepSeg_of_plain outSegs (fun s hs => (hpl s hs).1),
      filter_keepSeg_of_plain _ hFplain]

lemma pathResolve_pathJoin_dotdot (cwd : Chars) (outSegs : List Chars) (hne : outSegs ≠ [])
    (hpl : ∀ s ∈ outSegs, plainSeg s ∧ '/' ∉ s) :
    pathResolve cwd (pathJoin ('/' :: joinSegs outSegs) dotdot)
      = '/' :: joinSegs outSegs.dropLast := by
  have hjoin := pathJoin_eq_norm ('/' :: joinSegs outSegs) dotdot (by simp) (by simp [dotdot])
  have hsplit : splitSlash (('/' :: joinSegs outSegs) ++ '/' :: dotdot)
      = [] :: (outSegs ++ [dotdot]) := by
    rw [List.cons_append, splitSlash_slash_cons,
      splitSlash_joinSegs_append outSegs dotdot hne (fun s hs => (hpl s hs).2),
      show splitSlash dotdot = [dotdot] from rfl]
  have hlast : outSegs.getLast? ≠ some dotdot := by
    rw [List.getLast?_eq_getLast outSegs hne]
    intro hEq
    exact (hpl _ (List.getLast_mem hne)).1.2.2 (Option.some.inj hEq)
  have hfold : normSegs true (([] : Chars) :: (outSegs ++ [dotdot])) = outSegs.dropLast := by
    rw [normSegs, List.foldl_cons, show normStep true [] ([] : Chars) = [] from rfl,
      List.foldl_append,
      foldl_normStep_no_dotdot true outSegs [] (fun s hs => (hpl s hs).1.2.2),
      List.nil_append, filter_keepSeg_of_plain outSegs (fun s hs => (hpl s hs).1),
      List.foldl_cons, List.foldl_nil, normStep, if_neg (by simp [dotdot]), if_pos rfl,
      if_pos ⟨hne, hlast⟩]
  have hhead : (('/' :: joinSegs outSegs) ++ '/' :: dotdot).headD ' ' = '/' := by simp
  have hpne : ('/' :: joinSegs outSegs) ++ '/' :: dotdot ≠ [] := by simp
  have htr : decide ((('/' :: joinSegs outSegs) ++ '/' :: dotdot).getLast? = some '/')
      = false := by
    rw [List.getLast?_append, show ('/' :: dotdot).getLast? = some '.' from rfl]
    rfl
  have hnorm : pathNormalize (('/' :: joinSegs outSegs) ++ '/' :: dotdot)
      = '/' :: joinSegs outSegs.dropLast := by
    simp only [pathNormalize, if_neg hpne, decide_eq_true hhead]
    rw [hsplit, hfold, htr]
    simp
  rw [hjoin, hnorm, pathResolve_abs_eq, splitSlash_slash_cons]
  by_cases hdl : outSegs.dropLast = []
  · rw [hdl, show joinSegs ([] : List Chars) = [] from rfl,
      show splitSlash ([] : Chars) = [[]] from rfl,
      normSegs_nil_cons_plain _ (by
        intro s hs
        rcases List.mem_singleton.mp hs with rfl
        simp [dotdot]),
      show List.filter keepSeg [[]] = [] from rfl]
    rfl
  · rw [splitSlash_joinSegs outSegs.dropLast hdl
        (fun s hs => (hpl s (List.dropLast_subset _ hs)).2),
      normSegs_nil_cons_plain _ (fun s hs => (hpl s (List.dropLast_subset _ hs)).1.2.2),
      filter_keepSeg_of_plain _ (fun s hs => (hpl s (List.dropLast_subset _ hs)).1)]

lemma joinSegs_dropLast_length (outSegs : List Chars) (hne : outSegs ≠ [])
    (hnonempty : ∀ s ∈ outSegs, s ≠ []) :
    (joinSegs outSegs.dropLast).length < (joinSegs outSegs).length := by
  cases hdl : outSegs.dropLast with
  | nil =>
      conv_rhs => rw [← List.dropLast_append_getLast hne]
      rw [hdl, List.nil_append]
      have hlast_ne := hnonempty _ (List.getLast_mem hne)
      rw [show joinSegs ([] : List Chars) = [] from rfl,
        show joinSegs [outSegs.getLast hne] = outSegs.getLast hne from rfl]
      simpa using List.length_pos.mpr hlast_ne
  | cons d ds =>
      conv_rhs => rw [← List.dropLast_append_getLast hne]
      rw [hdl, joinSegs_append (d :: ds) [outSegs.getLast hne] (by simp) (by simp)]
      simp

lemma validatePath_dotdot_false (cwd : Chars) (outSegs : List Chars) (hne : outSegs ≠ [])
    (hpl : ∀ s ∈ outSegs, plainSeg s ∧ '/' ∉ s) :
    validatePath cwd ('/' :: joinSegs outSegs)
      (pathJoin ('/' :: joinSegs outSegs) dotdot) = false := by
  rw [validatePath, pathResolve_fixed cwd outSegs hne hpl,
    pathResolve_pathJoin_dotdot cwd outSegs hne hpl]
  by_contra h
  rw [Bool.not_eq_false] at h
  have hlen := isPrefixOf_length_le _ _ h
  simp only [List.length_cons] at hlen
  have := joinSegs_dropLast_length outSegs hne (fun s hs => (hpl s hs).1.1)
  omega

/-- C1: for every relative path supplied in a create-zip file descriptor
(including paths with any number of `../` segments), if the entry passes the
endpoint's gates — non-empty sanitized path of at most 255 characters and
`validatePath(outputDir, join(outputDir, sanitized))` — then the joined path
resolves inside the session's output directory (`outputDir` itself or a proper
descendant, on a path-segment boundary); otherwise the entry is rejected.  The
output directory is any absolute normalized path `'/' :: joinSegs outSegs` with
at least one plain segment, as produced by `path.join(TEMP_DIR, sessionId,
'output')`. -/
theorem c1_sanitized_paths_contained (cwd : Chars) (outSegs : List Chars) (filePath : Chars)
    (hne : outSegs ≠ [])
    (hpl : ∀ seg ∈ outSegs, plainSeg seg ∧ '/' ∉ seg)
    (hsafe : sanitizePath filePath ≠ [])
    (hlen : (sanitizePath filePath).length ≤ 255)
    (hval : validatePath cwd ('/' :: joinSegs outSegs)
        (pathJoin ('/' :: joinSegs outSegs) (sanitizePath filePath)) = true) :
    resolvesInside ('/' :: joinSegs outSegs)
      (pathResolve cwd (pathJoin ('/' :: joinSegs outSegs) (sanitizePath filePath))) := by
  rcases sanitizePath_shape filePath with hdd | hnoDd
  · rw [hdd, validatePath_dotdot_false cwd outSegs hne hpl] at hval
    cases hval
  · rw [pathResolve_pathJoin_noDd cwd outSegs (sanitizePath filePath) hne hpl hsafe hnoDd]
    rcases hF : (splitSlash (sanitizePath filePath)).filter keepSeg with _ | ⟨f, fs⟩
    · left
      rw [List.append_nil]
    · right
      refine ⟨joinSegs (f :: fs), ?_⟩
      rw [joinSegs_append outSegs (f :: fs) hne (by simp)]
      rfl

/-- C1 witness: the traversal path `../../etc/passwd` is sanitized to
`etc/passwd`, passes the gates, and resolves inside a concrete output
directory `/sess/output`. -/
theorem c1_witness :
    sanitizePath "../../etc/passwd".data ≠ [] ∧
    resolvesInside ('/' :: joinSegs ["sess".data, "output".data])
      (pathResolve "/".data (pathJoin ('/' :: joinSegs ["sess".data, "output".data])
        (sanitizePath "../../etc/passwd".data))) :=
  ⟨by decide,
    c1_sanitized_paths_contained "/".data ["sess".data, "output".data]
      "../../etc/passwd".data (by decide) (by decide) (by decide) (by decide) (by decide)⟩
